import Mathlib

/-
Verification of the lakehouse landing-zone-to-warehouse pipeline
(flatten, partition, write, merge) as implemented by the repository's
scripts (ravendb_sync.py, bridge_ravendb.py, bridge_hdf5.py,
ingest_hdf5.py, inventory_files.py).

The embedding is shallow: Python dictionaries become structures or
association lists, pandas/Spark dataframes become lists of rows, the
Iceberg/Nessie catalog becomes explicit state, and the external clock
(datetime.now) and ISO-8601 parser (datetime.fromisoformat) are passed
in explicitly as parameters.
-/

set_option maxHeartbeats 1000000

namespace Lakehouse

/-
Model of a Python datetime value: calendar fields down to microseconds.
Python's datetime guarantees 1 <= year <= 9999, 1 <= month <= 12,
1 <= day <= 31; ValidDT records those invariants.
-/
structure DT where
  year : Nat
  month : Nat
  day : Nat
  hour : Nat
  minute : Nat
  second : Nat
  microsecond : Nat
  deriving DecidableEq

def ValidDT (t : DT) : Prop :=
  1 ≤ t.year ∧ t.year ≤ 9999 ∧ 1 ≤ t.month ∧ t.month ≤ 12 ∧ 1 ≤ t.day ∧ t.day ≤ 31

instance (t : DT) : Decidable (ValidDT t) := by
  unfold ValidDT
  infer_instance

/-
Model of strftime with zero padding, as used by
`order["OrderDate"].strftime("%Y-%m-%d")` in ravendb_sync.group_by_date:
the month and day are zero-padded to two digits and the year to four
digits (CPython documents %Y as producing 0001..9999).
-/
def pad2 (n : Nat) : String :=
  if n < 10 then "0" ++ toString n else toString n

def pad4 (n : Nat) : String :=
  pad2 (n / 100) ++ pad2 (n % 100)

def dateKey (t : DT) : String :=
  pad4 t.year ++ "-" ++ pad2 t.month ++ "-" ++ pad2 t.day

/- Two datetimes fall on the same calendar day. -/
def sameDay (t1 t2 : DT) : Prop :=
  t1.year = t2.year ∧ t1.month = t2.month ∧ t1.day = t2.day

instance (t1 t2 : DT) : Decidable (sameDay t1 t2) := by
  unfold sameDay
  infer_instance

/-
Numeric value of a digit string, skipping dashes; used only to prove
injectivity of dateKey on valid dates.
-/
def charStep (a : Nat) (c : Char) : Nat :=
  if c = '-' then a else a * 10 + (c.toNat - 48)

def keyVal (s : String) : Nat :=
  s.data.foldl charStep 0

/-
Model of a RavenDB order document (ravendb_sync.py).  Every field a
document may or may not carry is an Option; `none` models an absent key,
matching the `doc.get(...)` lookups in flatten_order.
-/
structure LineItem where
  price : Option ℚ
  quantity : Option ℚ
  deriving DecidableEq

structure ShipTo where
  city : Option String
  country : Option String
  deriving DecidableEq

/- The OrderDate field can hold either an ISO string or a datetime. -/
inductive DateField where
  | str (s : String)
  | dt (t : DT)
  deriving DecidableEq

structure OrderDoc where
  customerId : Option String
  orderDate : Option DateField
  totalAmount : Option ℚ
  status : Option String
  shipTo : Option ShipTo
  lines : Option (List LineItem)
  deriving DecidableEq

/-
one flattened row produced by flatten_order / stored in the Iceberg
orders table.  String columns that Python fills with a str are typed
Option String so that a SQL NULL (`none`) is expressible and the claim
"missing fields map to null" can be stated; flatten_order itself never
produces `none` for them.
-/
structure NormalizedRow where
  orderId : String
  customerId : Option String
  orderDate : DT
  totalAmount : ℚ
  status : Option String
  shipCity : Option String
  shipCountry : Option String
  lineCount : Nat
  syncedAt : DT
  deriving DecidableEq

/-
Model of Python round(x, 2): round to 2 decimal places with ties going
to the even integer (banker's rounding), computed exactly on rationals.
-/
def roundHalfEven (q : ℚ) : ℤ :=
  let f : ℤ := ⌊q⌋
  let r : ℚ := q - f
  if r < 1/2 then f
  else if 1/2 < r then f + 1
  else if f % 2 = 0 then f else f + 1

def round2 (q : ℚ) : ℚ :=
  (roundHalfEven (q * 100) : ℚ) / 100

/-
flatten_order (ravendb_sync.py, lines 65-109).  `parseIso` models
datetime.fromisoformat (returning none on ValueError) and `now` models
datetime.now() for this processing step.  When the OrderDate key is
absent, the Python code parses datetime.now().isoformat(), which
round-trips to the current time, so the model uses `now` directly.
-/
def flattenOrder (parseIso : String → Option DT) (now : DT)
    (doc : OrderDoc) (docId : String) : NormalizedRow :=
  let total0 : ℚ := doc.totalAmount.getD 0
  let totalAmount : ℚ :=
    if total0 = 0 ∧ doc.lines.isSome = true then
      ((doc.lines.getD []).map (fun l => l.price.getD 0 * l.quantity.getD 0)).sum
    else total0
  let orderDate : DT :=
    match doc.orderDate with
    | none => now
    | some (DateField.str s) => (parseIso (s.replace "Z" "+00:00")).getD now
    | some (DateField.dt t) => t
  { orderId := docId
    customerId := some (doc.customerId.getD "")
    orderDate := orderDate
    totalAmount := round2 totalAmount
    status := some (doc.status.getD "Unknown")
    shipCity := some ((doc.shipTo.getD { city := none, country := none }).city.getD "")
    shipCountry := some ((doc.shipTo.getD { city := none, country := none }).country.getD "")
    lineCount := (doc.lines.getD []).length
    syncedAt := now }

/-
State-passing version of flatten_order, making explicit that the Python
function only reads from `doc` (there is no store into the source
document anywhere in its body); the second component is the source
document as it stands after the call.
-/
def flattenOrderState (parseIso : String → Option DT) (now : DT)
    (doc : OrderDoc) (docId : String) : NormalizedRow × OrderDoc :=
  (flattenOrder parseIso now doc docId, doc)

/- fetch_all_orders: flatten every (document, id) pair in the collection. -/
def fetchAllOrders (parseIso : String → Option DT) (now : DT)
    (docs : List (OrderDoc × String)) : List NormalizedRow :=
  docs.map (fun d => flattenOrder parseIso now d.1 d.2)

/-
group_by_date (ravendb_sync.py, lines 129-137).  The Python dict is
modelled as an association list ordered by key insertion (Python dicts
preserve insertion order); addOrder appends the row to the entry of its
key, creating the entry at the end when absent.
-/
def addOrder (k : String) (r : NormalizedRow) :
    List (String × List NormalizedRow) → List (String × List NormalizedRow)
  | [] => [(k, [r])]
  | (k', v) :: rest =>
      if k' = k then (k', v ++ [r]) :: rest else (k', v) :: addOrder k r rest

def groupByDate (orders : List NormalizedRow) : List (String × List NormalizedRow) :=
  orders.foldl (fun g r => addOrder (dateKey r.orderDate) r g) []

/- Dictionary lookup on the association-list model. -/
def lookupG : List (String × List NormalizedRow) → String → Option (List NormalizedRow)
  | [], _ => none
  | (k', v) :: rest, k => if k' = k then some v else lookupG rest k

/-
write_parquet_to_minio (ravendb_sync.py, lines 140-186).  The object
store is an association list from key to object content; put_object
overwrites an existing key.  The parquet payload is modelled by the row
list after the `.dt.floor("ms")` truncation the writer applies to every
datetime column (serialization itself is the pyarrow library, assumed
deterministic).
-/
def floorMs (t : DT) : DT :=
  { t with microsecond := t.microsecond / 1000 * 1000 }

def floorRowMs (r : NormalizedRow) : NormalizedRow :=
  { r with orderDate := floorMs r.orderDate, syncedAt := floorMs r.syncedAt }

def putObject (k : String) (v : List NormalizedRow) :
    List (String × List NormalizedRow) → List (String × List NormalizedRow)
  | [] => [(k, v)]
  | (k', v') :: rest =>
      if k' = k then (k, v) :: rest else (k', v') :: putObject k v rest

def lookupStore : List (String × List NormalizedRow) → String → Option (List NormalizedRow)
  | [], _ => none
  | (k', v) :: rest, k => if k' = k then some v else lookupStore rest k

def landingKey (datePartition : String) : String :=
  "silver/ravendb_landing/orders/" ++ datePartition ++ "/data.parquet"

def writeParquetToMinio (store : List (String × List NormalizedRow))
    (orders : List NormalizedRow) (datePartition : String) :
    List (String × List NormalizedRow) × String :=
  let key := landingKey datePartition
  (putObject key (orders.map floorRowMs) store, key)

/-
merge_into_iceberg (bridge_ravendb.py, lines 75-104): Spark SQL MERGE
INTO keyed on OrderId.  A matched target row has every non-key column
overwritten from the source row; an unmatched source row is inserted.
bridge_hdf5.py's MERGE (UPDATE SET * / INSERT *) has the same semantics
with file_path as the key.
-/
def updateMatched (t s : NormalizedRow) : NormalizedRow :=
  { orderId := t.orderId
    customerId := s.customerId
    orderDate := s.orderDate
    totalAmount := s.totalAmount
    status := s.status
    shipCity := s.shipCity
    shipCountry := s.shipCountry
    lineCount := s.lineCount
    syncedAt := s.syncedAt }

def mergeInto (target source : List NormalizedRow) : List NormalizedRow :=
  (target.map fun t =>
    match source.find? (fun s => s.orderId == t.orderId) with
    | some s => updateMatched t s
    | none => t)
  ++ source.filter (fun s => !(target.any (fun t => t.orderId == s.orderId)))

/-
use_write_audit_publish (inventory_files.py, lines 83-118).  The Nessie
catalog state is the main-line table plus the optional ingest branch
(`none` when the branch does not exist).  One run is the step sequence
create branch, write to branch, merge branch into main, drop branch; a
run that fails mid-way executes a proper prefix of that sequence.
-/
structure FileRow where
  filePath : String
  fileName : String
  fileExtension : String
  sizeBytes : Int
  ingestedAt : DT
  deriving DecidableEq

structure CatalogState where
  main : List FileRow
  branch : Option (List FileRow)
  deriving DecidableEq

inductive WapStep where
  | createBranch
  | writeBranch
  | mergeBranch
  | dropBranch
  deriving DecidableEq

def applyStep (df : List FileRow) (s : CatalogState) : WapStep → CatalogState
  | WapStep.createBranch =>
      if s.branch.isSome then s else { s with branch := some s.main }
  | WapStep.writeBranch =>
      { s with branch := s.branch.map (fun b => b ++ df) }
  | WapStep.mergeBranch =>
      { s with main := s.branch.getD s.main }
  | WapStep.dropBranch =>
      { s with branch := none }

def wapSteps : List WapStep :=
  [WapStep.createBranch, WapStep.writeBranch, WapStep.mergeBranch, WapStep.dropBranch]

/- Execute the first n steps of the write-audit-publish run. -/
def wapRun (df : List FileRow) (s : CatalogState) (n : Nat) : CatalogState :=
  (wapSteps.take n).foldl (applyStep df) s

/-
main of bridge_ravendb.py (lines 136-171): read_landing_zone returns
none when the landing path is missing/unreadable; in that case main
returns early and, because the script calls `main()` bare (no
`exit(main())`), the process exits with status 0.  On data it merges and
also exits 0.  The result is (final table, process exit status).
-/
def bridgeRavendbRun (landing : Option (List NormalizedRow))
    (table : List NormalizedRow) : List NormalizedRow × Nat :=
  match landing with
  | none => (table, 0)
  | some src => (mergeInto table src, 0)

/-
main of bridge_hdf5.py (lines 217-255): on missing or empty metadata it
returns 1 and the script calls `exit(main())`, so the process exit
status is 1; otherwise it merges and exits 0.  The merge function is a
parameter (its behaviour is irrelevant when no merge is attempted).
-/
def bridgeHdf5Run {α : Type} (mergeFn : List α → List α → List α)
    (metadata : Option (List α)) (table : List α) : List α × Nat :=
  match metadata with
  | none => (table, 1)
  | some src => if src.length = 0 then (table, 1) else (mergeFn table src, 0)

/-
metadata_to_dataframe (ingest_hdf5.py, lines 278-297).  A metadata
record is a Python dict from field name to a value that may be None;
modelled as an association list over MVal.  The function walks every
record and sets each missing schema field to None in place, so the
record dictionaries in the caller's list are mutated; the state-passing
embedding returns (dataframe rows, the metadata list after the call).
-/
inductive MVal where
  | null
  | str (s : String)
  | int (n : Int)
  | float (q : ℚ)
  deriving DecidableEq

abbrev MRec := List (String × MVal)

def schemaFields : List String :=
  ["file_path", "file_name", "file_size_bytes", "file_modified_time",
   "file_created_time", "ingestion_time", "tiled_uri", "tiled_adapter",
   "content_type", "hdf5_driver", "hdf5_libver", "group_count",
   "dataset_count", "significant_datasets", "entry_name", "title",
   "experiment_identifier", "start_time", "end_time", "duration",
   "run_number", "instrument_name", "instrument_type", "source_name",
   "source_type", "sample_name", "sample_description", "user_name",
   "user_facility", "extraction_error"]

def lookupRec : MRec → String → Option MVal
  | [], _ => none
  | (k', v) :: rest, k => if k' = k then some v else lookupRec rest k

/- The in-place field filling applied to one record dict. -/
def fillRecord (r : MRec) : MRec :=
  schemaFields.foldl
    (fun acc f => if acc.any (fun p => p.1 = f) then acc else acc ++ [(f, MVal.null)])
    r

def metadataToDataframe (ml : List MRec) : List MRec × List MRec :=
  let filled := ml.map fillRecord
  (filled, filled)

/- Combination of an existing dict entry with the rows a fold appends. -/
def combineOpt (v : Option (List NormalizedRow)) (f : List NormalizedRow) :
    Option (List NormalizedRow) :=
  match v with
  | some v0 => some (v0 ++ f)
  | none => if f = [] then none else some f

/- Values of the grouping, concatenated. -/
def groupValues (g : List (String × List NormalizedRow)) : List NormalizedRow :=
  (g.map (fun p => p.2)).flatten

/-
Upsert correctness of MERGE INTO: every source row ends up in the
merged table verbatim (full-row replace for matches, insert for
non-matches), every merged row is either a source row or an untouched
target row whose key the source does not mention, and the merged table
has no duplicate natural keys.
-/
def UpsertSpec (target source merged : List NormalizedRow) : Prop :=
  (∀ s ∈ source, s ∈ merged) ∧
  (∀ r ∈ merged,
    r ∈ source ∨ (r ∈ target ∧ r.orderId ∉ source.map (fun x => x.orderId))) ∧
  (merged.map (fun r => r.orderId)).Nodup

/-
Day-grouping correctness of group_by_date: two rows land under the same
partition key exactly when their timestamps share a calendar day, every
partition is the input filtered to its key (so rows keep insertion
order), and the union of the partitions is a permutation of the input
(no row duplicated or dropped).
-/
def PartitionerSpec (l : List NormalizedRow) : Prop :=
  (∀ k1 k2 v1 v2 r1 r2,
    lookupG (groupByDate l) k1 = some v1 → r1 ∈ v1 →
    lookupG (groupByDate l) k2 = some v2 → r2 ∈ v2 →
    (k1 = k2 ↔ sameDay r1.orderDate r2.orderDate)) ∧
  (∀ k v, lookupG (groupByDate l) k = some v →
    v = l.filter (fun r => dateKey r.orderDate == k)) ∧
  List.Perm (groupValues (groupByDate l)) l

/-
Branch lifecycle of use_write_audit_publish: starting from a state with
no ingest branch, after any failure point before the branch merge the
branch is present and the main line untouched; the branch is dropped
only by the final step, after the merge into main has succeeded.
wapRun df s0 n is the state after the first n of the four steps.
-/
def WapSpec (df : List FileRow) (s0 : CatalogState) : Prop :=
  (∀ n, 1 ≤ n → n ≤ 3 → (wapRun df s0 n).branch.isSome = true) ∧
  (∀ n, n ≤ 2 → (wapRun df s0 n).main = s0.main) ∧
  (wapRun df s0 1).branch = some s0.main ∧
  (wapRun df s0 2).branch = some (s0.main ++ df) ∧
  wapRun df s0 4 = { main := s0.main ++ df, branch := none }

/-
Concrete instances for witnesses and counterexamples.  rowA1/rowA2/rowB3
are the spec's worked upsert example: a table holding key A value 1
merged with the batch A value 2, B value 3.
-/
def dt0 : DT :=
  { year := 2024, month := 1, day := 1, hour := 0, minute := 0, second := 0,
    microsecond := 0 }

def dtJan2 : DT :=
  { year := 2024, month := 1, day := 2, hour := 12, minute := 30, second := 5,
    microsecond := 250 }

def rowA1 : NormalizedRow :=
  { orderId := "A", customerId := some "c1", orderDate := dt0, totalAmount := 1,
    status := some "Open", shipCity := some "", shipCountry := some "",
    lineCount := 0, syncedAt := dt0 }

def rowA2 : NormalizedRow :=
  { orderId := "A", customerId := some "c1", orderDate := dt0, totalAmount := 2,
    status := some "Open", shipCity := some "", shipCountry := some "",
    lineCount := 0, syncedAt := dt0 }

def rowB3 : NormalizedRow :=
  { orderId := "B", customerId := some "c2", orderDate := dt0, totalAmount := 3,
    status := some "Open", shipCity := some "", shipCountry := some "",
    lineCount := 0, syncedAt := dt0 }

def rowC4 : NormalizedRow :=
  { orderId := "C", customerId := some "c3", orderDate := dtJan2, totalAmount := 4,
    status := some "Open", shipCity := some "", shipCountry := some "",
    lineCount := 0, syncedAt := dtJan2 }

def rowsDemo : List NormalizedRow := [rowA1, rowB3, rowC4]

/-
Two source rows sharing the natural key "K": a batch like this arises
when a document's OrderDate moves between sync runs, leaving a stale
copy in an old partition file that the landing-zone glob still reads.
-/
def rowK1 : NormalizedRow :=
  { orderId := "K", customerId := some "c9", orderDate := dt0, totalAmount := 10,
    status := some "Open", shipCity := some "", shipCountry := some "",
    lineCount := 0, syncedAt := dt0 }

def rowK2 : NormalizedRow :=
  { orderId := "K", customerId := some "c9", orderDate := dtJan2, totalAmount := 11,
    status := some "Shipped", shipCity := some "", shipCountry := some "",
    lineCount := 0, syncedAt := dtJan2 }

/- A document carrying none of the optional fields. -/
def emptyDoc : OrderDoc :=
  { customerId := none, orderDate := none, totalAmount := none, status := none,
    shipTo := none, lines := none }

/- A document whose OrderDate string cannot be parsed as a timestamp. -/
def badDateDoc : OrderDoc :=
  { customerId := none, orderDate := some (DateField.str "not-a-date"),
    totalAmount := none, status := none, shipTo := none, lines := none }

/- A document legitimately carrying TotalAmount = 0 with non-empty Lines. -/
def zeroTotalDoc : OrderDoc :=
  { customerId := none, orderDate := none, totalAmount := some 0, status := none,
    shipTo := none, lines := some [{ price := some 2, quantity := some 3 }] }

def demoFileRow : FileRow :=
  { filePath := "s3a://lakehouse/bronze/files/a.txt", fileName := "a.txt",
    fileExtension := "txt", sizeBytes := 10, ingestedAt := dt0 }

def demoCatalog : CatalogState := { main := [], branch := none }

def demoMRec : MRec := [("title", MVal.str "run 42")]

/-
Helper lemmas: the %Y-%m-%d partition key is injective on valid dates.
-/

theorem pad2_facts : ∀ n : Fin 100,
    (pad2 n.1).data.foldl charStep 0 = n.1 ∧
    (pad2 n.1).data.length = 2 ∧
    ∀ c ∈ (pad2 n.1).data, c ≠ '-' := by decide

theorem foldl_charStep_horner (l : List Char) (hl : ∀ c ∈ l, c ≠ '-') (a : Nat) :
    l.foldl charStep a = a * 10 ^ l.length + l.foldl charStep 0 := by
  induction l generalizing a with
  | nil => simp
  | cons c t ih =>
      have hc : charStep a c = a * 10 + (c.toNat - 48) := by
        simp [charStep, hl c (by simp)]
      have hc0 : charStep 0 c = c.toNat - 48 := by
        simp [charStep, hl c (by simp)]
      have ht : ∀ x ∈ t, x ≠ '-' := fun x hx => hl x (by simp [hx])
      simp only [List.foldl_cons, hc, hc0, List.length_cons]
      rw [ih ht (a * 10 + (c.toNat - 48)), ih ht (c.toNat - 48)]
      ring

theorem foldl_pad2 (n a : Nat) (h : n < 100) :
    (pad2 n).data.foldl charStep a = a * 100 + n := by
  have hf := pad2_facts ⟨n, h⟩
  rw [foldl_charStep_horner _ hf.2.2 a, hf.1, hf.2.1]
  norm_num

theorem keyVal_dateKey (t : DT) (h : ValidDT t) :
    keyVal (dateKey t) = t.year * 10000 + t.month * 100 + t.day := by
  obtain ⟨h1, h2, h3, h4, h5, h6⟩ := h
  have hy1 : t.year / 100 < 100 := by omega
  have hy2 : t.year % 100 < 100 := by omega
  have hm : t.month < 100 := by omega
  have hd : t.day < 100 := by omega
  have hdash : ∀ a : Nat, (("-" : String).data).foldl charStep a = a := by
    intro a
    show List.foldl charStep a ['-'] = a
    simp [charStep]
  unfold keyVal dateKey pad4
  simp only [String.data_append, List.foldl_append]
  rw [foldl_pad2 _ _ hy1, foldl_pad2 _ _ hy2, hdash, foldl_pad2 _ _ hm, hdash,
    foldl_pad2 _ _ hd]
  have := Nat.div_add_mod t.year 100
  ring_nf
  omega

theorem dateKey_inj (t1 t2 : DT) (h1 : ValidDT t1) (h2 : ValidDT t2)
    (h : dateKey t1 = dateKey t2) : sameDay t1 t2 := by
  have hv := keyVal_dateKey t1 h1
  have hv2 := keyVal_dateKey t2 h2
  have heq : keyVal (dateKey t1) = keyVal (dateKey t2) := by rw [h]
  rw [hv, hv2] at heq
  obtain ⟨a1, a2, a3, a4, a5, a6⟩ := h1
  obtain ⟨b1, b2, b3, b4, b5, b6⟩ := h2
  refine ⟨?_, ?_, ?_⟩ <;> omega

theorem dateKey_sameDay (t1 t2 : DT) (h : sameDay t1 t2) : dateKey t1 = dateKey t2 := by
  obtain ⟨h1, h2, h3⟩ := h
  unfold dateKey
  rw [h1, h2, h3]

/-
Helper lemmas: characterization of group_by_date.
-/

theorem lookupG_addOrder_self (g : List (String × List NormalizedRow))
    (k : String) (r : NormalizedRow) :
    lookupG (addOrder k r g) k = some ((lookupG g k).getD [] ++ [r]) := by
  induction g with
  | nil => simp [addOrder, lookupG]
  | cons p rest ih =>
      obtain ⟨k', v⟩ := p
      by_cases h : k' = k
      · subst h
        simp [addOrder, lookupG]
      · simp only [addOrder, if_neg h, lookupG]
        exact ih

theorem lookupG_addOrder_ne (g : List (String × List NormalizedRow))
    (k k' : String) (r : NormalizedRow) (h : k' ≠ k) :
    lookupG (addOrder k r g) k' = lookupG g k' := by
  induction g with
  | nil => simp [addOrder, lookupG, Ne.symm h]
  | cons p rest ih =>
      obtain ⟨k0, v⟩ := p
      by_cases h0 : k0 = k
      · subst h0
        simp [addOrder, lookupG, Ne.symm h]
      · simp only [addOrder, if_neg h0, lookupG]
        by_cases h1 : k0 = k'
        · simp [h1]
        · rw [if_neg h1, if_neg h1]
          exact ih

theorem lookupG_foldl_addOrder (l : List NormalizedRow)
    (g : List (String × List NormalizedRow)) (k : String) :
    lookupG (l.foldl (fun g r => addOrder (dateKey r.orderDate) r g) g) k =
      combineOpt (lookupG g k) (l.filter (fun r => dateKey r.orderDate == k)) := by
  induction l generalizing g with
  | nil =>
      simp only [List.foldl_nil, List.filter_nil, combineOpt]
      cases lookupG g k <;> simp
  | cons r t ih =>
      simp only [List.foldl_cons, List.filter_cons]
      by_cases h : dateKey r.orderDate = k
      · rw [ih, h, lookupG_addOrder_self]
        cases hv : lookupG g k <;> simp [combineOpt, hv, List.append_assoc]
      · rw [ih, lookupG_addOrder_ne _ _ _ _ (fun hk => h hk.symm)]
        have hb : (dateKey r.orderDate == k) = false := by simp [h]
        rw [hb]
        simp

theorem lookupG_groupByDate (l : List NormalizedRow) (k : String) :
    lookupG (groupByDate l) k =
      (if l.filter (fun r => dateKey r.orderDate == k) = [] then none
       else some (l.filter (fun r => dateKey r.orderDate == k))) := by
  unfold groupByDate
  rw [lookupG_foldl_addOrder]
  simp [lookupG, List.find?, combineOpt]

theorem groupValues_addOrder (g : List (String × List NormalizedRow))
    (k : String) (r : NormalizedRow) :
    List.Perm (groupValues (addOrder k r g)) (groupValues g ++ [r]) := by
  induction g with
  | nil => simp [addOrder, groupValues]
  | cons p rest ih =>
      obtain ⟨k', v⟩ := p
      by_cases h : k' = k
      · have ha : addOrder k r ((k', v) :: rest) = (k', v ++ [r]) :: rest := by
          simp [addOrder, h]
        rw [ha]
        simp only [groupValues, List.map_cons, List.flatten_cons]
        rw [List.append_assoc, List.append_assoc]
        exact List.Perm.append_left v List.perm_append_comm
      · have ha : addOrder k r ((k', v) :: rest) = (k', v) :: addOrder k r rest := by
          simp [addOrder, h]
        rw [ha]
        simp only [groupValues, List.map_cons, List.flatten_cons]
        rw [List.append_assoc]
        exact List.Perm.append_left v ih

theorem groupValues_foldl (l : List NormalizedRow)
    (g : List (String × List NormalizedRow)) :
    List.Perm
      (groupValues (l.foldl (fun g r => addOrder (dateKey r.orderDate) r g) g))
      (groupValues g ++ l) := by
  induction l generalizing g with
  | nil => simp
  | cons r t ih =>
      simp only [List.foldl_cons]
      refine (ih (addOrder (dateKey r.orderDate) r g)).trans ?_
      have h1 := groupValues_addOrder g (dateKey r.orderDate) r
      refine (List.Perm.append_right t h1).trans ?_
      rw [List.append_assoc]
      simp

theorem groupValues_groupByDate (l : List NormalizedRow) :
    List.Perm (groupValues (groupByDate l)) l := by
  have h := groupValues_foldl l []
  simpa [groupValues] using h

/-
Helper lemmas: MERGE INTO semantics.
-/

theorem updateMatched_orderId (t s : NormalizedRow) :
    (updateMatched t s).orderId = t.orderId := rfl

theorem updateMatched_eq_source (t s : NormalizedRow) (h : s.orderId = t.orderId) :
    updateMatched t s = s := by
  cases s
  simp [updateMatched]
  exact h.symm

theorem updateMatched_self (r : NormalizedRow) : updateMatched r r = r := by
  cases r
  rfl

theorem find?_key_self (source : List NormalizedRow) (s : NormalizedRow)
    (hS : (source.map (fun x => x.orderId)).Nodup) (hs : s ∈ source) :
    source.find? (fun x => x.orderId == s.orderId) = some s := by
  induction source with
  | nil => cases hs
  | cons a rest ih =>
      simp only [List.map_cons, List.nodup_cons] at hS
      by_cases h : a.orderId = s.orderId
      · have hsa : s = a := by
          rcases List.mem_cons.mp hs with h1 | h1
          · exact h1
          · exfalso
            exact hS.1 (h ▸ List.mem_map_of_mem (fun x => x.orderId) h1)
        subst hsa
        simp [List.find?]
      · have hsr : s ∈ rest := by
          rcases List.mem_cons.mp hs with h1 | h1
          · exact absurd (h1 ▸ rfl) h
          · exact h1
        simp only [List.find?]
        have hb : (a.orderId == s.orderId) = false := by simp [h]
        rw [hb]
        exact ih hS.2 hsr

theorem mem_mergeInto_of_source (target source : List NormalizedRow)
    (s : NormalizedRow)
    (hS : (source.map (fun x => x.orderId)).Nodup) (hs : s ∈ source) :
    s ∈ mergeInto target source := by
  unfold mergeInto
  by_cases h : target.any (fun t => t.orderId == s.orderId)
  · rw [List.any_eq_true] at h
    obtain ⟨t, ht, hkey⟩ := h
    rw [beq_iff_eq] at hkey
    refine List.mem_append_left _ ?_
    refine List.mem_map.mpr ⟨t, ht, ?_⟩
    have hfind : source.find? (fun x => x.orderId == t.orderId) = some s := by
      rw [hkey]
      exact find?_key_self source s hS hs
    rw [hfind]
    exact updateMatched_eq_source t s hkey.symm
  · refine List.mem_append_right _ ?_
    refine List.mem_filter.mpr ⟨hs, ?_⟩
    simp only [Bool.not_eq_true] at h
    simp [h]

theorem mergeInto_keys_map (target source : List NormalizedRow) :
    (target.map fun t =>
      match source.find? (fun s => s.orderId == t.orderId) with
      | some s => updateMatched t s
      | none => t).map (fun r => r.orderId) = target.map (fun r => r.orderId) := by
  rw [List.map_map]
  refine List.map_congr_left ?_
  intro t _
  simp only [Function.comp_apply]
  cases h : source.find? (fun s => s.orderId == t.orderId) with
  | none => simp [h]
  | some s => simp [h, updateMatched]

theorem updateMatched_idem (t s : NormalizedRow) :
    updateMatched (updateMatched t s) s = updateMatched t s := rfl

/-- C1 counterexample: a source batch with two rows sharing the natural
key "K", both unmatched against the empty table, merges successfully by
inserting both rows (Spark's MERGE cardinality check only rejects
multiple source rows matching one target row; NOT MATCHED duplicates
are each inserted), leaving duplicate natural keys in the table — so
"for every source batch ... the table contains no duplicate natural
keys" fails at this input. -/
theorem merge_duplicate_unmatched_keys :
    mergeInto [] [rowK1, rowK2] = [rowK1, rowK2] ∧
    ¬ ((mergeInto [] [rowK1, rowK2]).map (fun r => r.orderId)).Nodup :=
  ⟨by decide, by decide⟩

/-- C1 (amended): for a warehouse table and a source batch that each
carry unique natural keys, after MERGE keyed on OrderId every source
row is present in full (matched target rows are fully replaced, not
partially patched; unmatched source rows inserted), every surviving row
is either a source row or a target row whose key the batch never
mentioned, and no natural key is duplicated.  The uniqueness hypothesis
on the batch is necessary: a batch with duplicate unmatched keys merges
successfully and inserts all copies, duplicating the key (see the
counterexample). -/
theorem merge_upsert_correct (target source : List NormalizedRow)
    (hT : (target.map (fun x => x.orderId)).Nodup)
    (hS : (source.map (fun x => x.orderId)).Nodup) :
    UpsertSpec target source (mergeInto target source) := by
  refine ⟨?_, ?_, ?_⟩
  · intro s hs
    exact mem_mergeInto_of_source target source s hS hs
  · intro r hr
    unfold mergeInto at hr
    rcases List.mem_append.mp hr with h | h
    · obtain ⟨t, ht, heq⟩ := List.mem_map.mp h
      cases hft : source.find? (fun s => s.orderId == t.orderId) with
      | some s =>
          rw [hft] at heq
          have heq' : updateMatched t s = r := heq
          left
          have hkey := List.find?_some hft
          rw [beq_iff_eq] at hkey
          rw [← heq', updateMatched_eq_source t s hkey]
          exact List.mem_of_find?_eq_some hft
      | none =>
          rw [hft] at heq
          have heq' : t = r := heq
          right
          refine ⟨heq' ▸ ht, ?_⟩
          intro hmem
          obtain ⟨x, hx, hxkey⟩ := List.mem_map.mp hmem
          have hnone := List.find?_eq_none.mp hft x hx
          rw [← heq'] at hxkey
          simp [hxkey] at hnone
    · left
      exact (List.mem_filter.mp h).1
  · unfold mergeInto
    rw [List.map_append, List.nodup_append]
    refine ⟨?_, ?_, ?_⟩
    · rw [mergeInto_keys_map]
      exact hT
    · refine List.Nodup.sublist ?_ hS
      exact List.Sublist.map _ (List.filter_sublist source)
    · intro a ha hb
      rw [mergeInto_keys_map] at ha
      obtain ⟨t, ht, htkey⟩ := List.mem_map.mp ha
      obtain ⟨s, hs, hskey⟩ := List.mem_map.mp hb
      have hsf := (List.mem_filter.mp hs).2
      rw [Bool.not_eq_eq_eq_not, Bool.not_true, List.any_eq_false] at hsf
      have := hsf t ht
      rw [htkey, ← hskey] at this
      simp at this

/-- C1 witness: the spec's worked example, with the hypotheses discharged
concretely; the merged table is exactly the two source rows, with the
stale A row gone. -/
theorem merge_upsert_correct_witness :
    ([rowA1].map (fun x => x.orderId)).Nodup ∧
    ([rowA2, rowB3].map (fun x => x.orderId)).Nodup ∧
    UpsertSpec [rowA1] [rowA2, rowB3] (mergeInto [rowA1] [rowA2, rowB3]) ∧
    mergeInto [rowA1] [rowA2, rowB3] = [rowA2, rowB3] :=
  ⟨by decide, by decide,
   merge_upsert_correct [rowA1] [rowA2, rowB3] (by decide) (by decide),
   by decide⟩

/-- C3: merging the same source batch twice leaves the table exactly as
after one merge (the second pass re-applies the same matches), for any
prior warehouse table state; the batch has unique natural keys, which a
successful Spark MERGE requires. -/
theorem merge_idempotent (target source : List NormalizedRow)
    (hS : (source.map (fun x => x.orderId)).Nodup) :
    mergeInto (mergeInto target source) source = mergeInto target source := by
  have hfilter :
      source.filter
        (fun s => !((mergeInto target source).any (fun t => t.orderId == s.orderId))) = [] := by
    rw [List.filter_eq_nil_iff]
    intro s hs
    have hmem := mem_mergeInto_of_source target source s hS hs
    have hany : (mergeInto target source).any (fun t => t.orderId == s.orderId) = true :=
      List.any_eq_true.mpr ⟨s, hmem, by simp⟩
    simp [hany]
  have hmap :
      ((mergeInto target source).map fun t =>
        match source.find? (fun s => s.orderId == t.orderId) with
        | some s => updateMatched t s
        | none => t) = mergeInto target source := by
    have hcongr : ∀ r ∈ mergeInto target source,
        (match source.find? (fun s => s.orderId == r.orderId) with
         | some s => updateMatched r s
         | none => r) = r := by
      intro r hr
      cases hf : source.find? (fun s => s.orderId == r.orderId) with
      | none => rfl
      | some s =>
          show updateMatched r s = r
          unfold mergeInto at hr
          rcases List.mem_append.mp hr with h | h
          · obtain ⟨t, ht, heq⟩ := List.mem_map.mp h
            cases hft : source.find? (fun s => s.orderId == t.orderId) with
            | some s' =>
                rw [hft] at heq
                have heq' : updateMatched t s' = r := heq
                have hkey : r.orderId = t.orderId := by
                  rw [← heq']
                  rfl
                rw [hkey] at hf
                rw [hft] at hf
                injection hf with hss
                rw [← hss, ← heq']
                exact updateMatched_idem t s'
            | none =>
                rw [hft] at heq
                have heq' : t = r := heq
                have hkey : r.orderId = t.orderId := by rw [← heq']
                rw [hkey, hft] at hf
                cases hf
          · have hrs : r ∈ source := (List.mem_filter.mp h).1
            have hself := find?_key_self source r hS hrs
            rw [hself] at hf
            injection hf with hss
            rw [← hss]
            exact updateMatched_self r
    calc ((mergeInto target source).map fun t =>
            match source.find? (fun s => s.orderId == t.orderId) with
            | some s => updateMatched t s
            | none => t)
        = (mergeInto target source).map id := List.map_congr_left hcongr
      _ = mergeInto target source := List.map_id _
  show ((mergeInto target source).map fun t =>
          match source.find? (fun s => s.orderId == t.orderId) with
          | some s => updateMatched t s
          | none => t)
        ++ source.filter
          (fun s => !((mergeInto target source).any (fun t => t.orderId == s.orderId)))
      = mergeInto target source
  rw [hfilter, hmap, List.append_nil]

/-- C3 witness: merging the A2/B3 batch twice into the one-row table
equals merging it once. -/
theorem merge_idempotent_witness :
    ([rowA2, rowB3].map (fun x => x.orderId)).Nodup ∧
    mergeInto (mergeInto [rowA1] [rowA2, rowB3]) [rowA2, rowB3] =
      mergeInto [rowA1] [rowA2, rowB3] :=
  ⟨by decide, merge_idempotent [rowA1] [rowA2, rowB3] (by decide)⟩

/-
Helper lemmas: the object-store put and the metadata record filling.
-/

theorem putObject_idem (store : List (String × List NormalizedRow))
    (k : String) (v : List NormalizedRow) :
    putObject k v (putObject k v store) = putObject k v store := by
  induction store with
  | nil => simp [putObject]
  | cons p rest ih =>
      obtain ⟨k', v'⟩ := p
      by_cases h : k' = k
      · simp [putObject, h]
      · simp [putObject, h, ih]

theorem lookupStore_putObject (store : List (String × List NormalizedRow))
    (k : String) (v : List NormalizedRow) :
    lookupStore (putObject k v store) k = some v := by
  induction store with
  | nil => simp [putObject, lookupStore]
  | cons p rest ih =>
      obtain ⟨k', v'⟩ := p
      by_cases h : k' = k
      · simp [putObject, h, lookupStore]
      · simp [putObject, h, lookupStore, ih]

theorem lookupRec_append (r l2 : MRec) (f : String) :
    lookupRec (r ++ l2) f =
      match lookupRec r f with
      | some v => some v
      | none => lookupRec l2 f := by
  induction r with
  | nil => simp [lookupRec]
  | cons p rest ih =>
      obtain ⟨k', v'⟩ := p
      by_cases h : k' = f
      · simp [lookupRec, h]
      · simp only [List.cons_append, lookupRec, if_neg h]
        exact ih

theorem any_eq_false_of_lookupRec_none (r : MRec) (f : String)
    (h : lookupRec r f = none) : r.any (fun p => p.1 = f) = false := by
  induction r with
  | nil => rfl
  | cons p rest ih =>
      obtain ⟨k', v'⟩ := p
      simp only [lookupRec] at h
      by_cases hk : k' = f
      · rw [if_pos hk] at h
        cases h
      · rw [if_neg hk] at h
        simp [List.any_cons, hk, ih h]

theorem fill_foldl_preserve (fields : List String) (r : MRec) (f : String) (v : MVal)
    (h : lookupRec r f = some v) :
    lookupRec
      (fields.foldl
        (fun acc g =>
          if acc.any (fun p => p.1 = g) then acc else acc ++ [(g, MVal.null)]) r)
      f = some v := by
  induction fields generalizing r with
  | nil => simpa using h
  | cons g t ih =>
      simp only [List.foldl_cons]
      apply ih
      split
      · exact h
      · rw [lookupRec_append, h]

theorem fill_foldl_missing (fields : List String) (r : MRec) (f : String)
    (hf : f ∈ fields) (h : lookupRec r f = none) :
    lookupRec
      (fields.foldl
        (fun acc g =>
          if acc.any (fun p => p.1 = g) then acc else acc ++ [(g, MVal.null)]) r)
      f = some MVal.null := by
  induction fields generalizing r with
  | nil => cases hf
  | cons g t ih =>
      simp only [List.foldl_cons]
      by_cases hfg : f = g
      · subst hfg
        have hany := any_eq_false_of_lookupRec_none r f h
        have hval : lookupRec (r ++ [(f, MVal.null)]) f = some MVal.null := by
          rw [lookupRec_append, h]
          simp [lookupRec]
        have hstep :
            (if r.any (fun p => p.1 = f) then r else r ++ [(f, MVal.null)]) =
              r ++ [(f, MVal.null)] := by
          rw [hany]
          simp
        rw [hstep]
        exact fill_foldl_preserve t (r ++ [(f, MVal.null)]) f MVal.null hval
      · have hft : f ∈ t := by
          rcases List.mem_cons.mp hf with h1 | h1
          · exact absurd h1 hfg
          · exact h1
        refine ih _ hft ?_
        split
        · exact h
        · rw [lookupRec_append, h]
          simp [lookupRec, Ne.symm hfg]

theorem fill_append_ext (fields : List String) (r : MRec) :
    ∃ ext : MRec,
      fields.foldl
        (fun acc g =>
          if acc.any (fun p => p.1 = g) then acc else acc ++ [(g, MVal.null)]) r
      = r ++ ext ∧ ∀ p ∈ ext, p.2 = MVal.null := by
  induction fields generalizing r with
  | nil => exact ⟨[], by simp, by simp⟩
  | cons g t ih =>
      simp only [List.foldl_cons]
      by_cases hb : r.any (fun p => p.1 = g) = true
      · have hstep :
            (if r.any (fun p => p.1 = g) then r else r ++ [(g, MVal.null)]) = r := by
          rw [hb]
          simp
        rw [hstep]
        exact ih r
      · have hstep :
            (if r.any (fun p => p.1 = g) then r else r ++ [(g, MVal.null)]) =
              r ++ [(g, MVal.null)] := by
          rw [Bool.not_eq_true] at hb
          rw [hb]
          simp
        rw [hstep]
        obtain ⟨ext, hext, hnull⟩ := ih (r ++ [(g, MVal.null)])
        refine ⟨(g, MVal.null) :: ext, ?_, ?_⟩
        · rw [hext, List.append_assoc]
          simp
        · intro p hp
          rcases List.mem_cons.mp hp with h1 | h1
          · rw [h1]
          · exact hnull p h1

/-- C2: in a write-audit-publish run starting with no ingest branch, the
branch is deleted only by the final step after the merge into main; any
failure point after branch creation and before the merge leaves the
branch present and the main line exactly as before the run. -/
theorem wap_branch_lifecycle (df : List FileRow) (s0 : CatalogState)
    (h0 : s0.branch = none) : WapSpec df s0 := by
  refine ⟨?_, ?_, ?_, ?_, ?_⟩
  · intro n h1 h2
    interval_cases n <;> simp [wapRun, wapSteps, applyStep, h0]
  · intro n h2
    interval_cases n <;> simp [wapRun, wapSteps, applyStep, h0]
  · simp [wapRun, wapSteps, applyStep, h0]
  · simp [wapRun, wapSteps, applyStep, h0]
  · simp [wapRun, wapSteps, applyStep, h0]

/-- C2 witness: one file row appended through the write-audit-publish
run from an empty catalog with no pre-existing branch. -/
theorem wap_branch_lifecycle_witness :
    demoCatalog.branch = none ∧ WapSpec [demoFileRow] demoCatalog :=
  ⟨rfl, wap_branch_lifecycle [demoFileRow] demoCatalog rfl⟩

/-- C4 counterexample: with the landing zone missing, bridge_ravendb's
main returns early and the process exits with status 0 — not the
non-zero status the claim requires (the script runs `main()` bare, never
`exit(main())`). -/
theorem bridge_ravendb_exit_status_zero :
    bridgeRavendbRun none [rowA1] = ([rowA1], 0) ∧
    ¬ (bridgeRavendbRun none [rowA1]).2 ≠ 0 :=
  ⟨rfl, fun h => h rfl⟩

/-- C4 (amended): when the landing zone is missing or empty both bridge
jobs report and leave the warehouse table untouched without attempting a
merge (the result does not depend on the merge function at all), but
only bridge_hdf5 exits with a non-zero status (1); bridge_ravendb exits
with status 0 because its main is invoked without exit(). -/
theorem source_unavailable_soft_failure :
    (∀ table : List NormalizedRow, bridgeRavendbRun none table = (table, 0)) ∧
    (∀ (α : Type) (mergeFn : List α → List α → List α) (table : List α),
      bridgeHdf5Run mergeFn none table = (table, 1)) ∧
    (∀ (α : Type) (mergeFn : List α → List α → List α) (table : List α),
      bridgeHdf5Run mergeFn (some []) table = (table, 1)) :=
  ⟨fun _ => rfl, fun _ _ _ => rfl, fun _ _ _ => rfl⟩

/-- C5 counterexample: a document lacking CustomerId is flattened to a
row whose CustomerId is the empty string, not null. -/
theorem flatten_missing_field_not_null :
    (flattenOrder (fun _ => none) dt0 emptyDoc "orders/1").customerId = some "" ∧
    ¬ (flattenOrder (fun _ => none) dt0 emptyDoc "orders/1").customerId = none :=
  ⟨rfl, by decide⟩

/-- C5 (amended): metadata_to_dataframe gives every missing schema field
the null value (as a present key) and preserves fields already present;
flatten_order instead fills missing fields with non-null defaults — the
empty string for CustomerId and the sentinel "Unknown" for Status. -/
theorem missing_field_null_filling :
    (∀ (r : MRec) (f : String), f ∈ schemaFields → lookupRec r f = none →
      lookupRec (fillRecord r) f = some MVal.null) ∧
    (∀ (r : MRec) (f : String) (v : MVal), lookupRec r f = some v →
      lookupRec (fillRecord r) f = some v) ∧
    (∀ (parseIso : String → Option DT) (now : DT) (doc : OrderDoc) (docId : String),
      doc.customerId = none →
      (flattenOrder parseIso now doc docId).customerId = some "") ∧
    (∀ (parseIso : String → Option DT) (now : DT) (doc : OrderDoc) (docId : String),
      doc.status = none →
      (flattenOrder parseIso now doc docId).status = some "Unknown") := by
  refine ⟨?_, ?_, ?_, ?_⟩
  · intro r f hf h
    exact fill_foldl_missing schemaFields r f hf h
  · intro r f v h
    exact fill_foldl_preserve schemaFields r f v h
  · intro parseIso now doc docId h
    simp [flattenOrder, h]
  · intro parseIso now doc docId h
    simp [flattenOrder, h]

/-- C5 witness: a metadata record carrying only a title gets file_path
filled with null; the empty document's missing CustomerId becomes the
empty string. -/
theorem missing_field_null_filling_witness :
    ("file_path" ∈ schemaFields) ∧
    lookupRec demoMRec "file_path" = none ∧
    lookupRec (fillRecord demoMRec) "file_path" = some MVal.null ∧
    emptyDoc.customerId = none ∧
    (flattenOrder (fun _ => none) dt0 emptyDoc "orders/1").customerId = some "" :=
  ⟨by decide, by decide,
   missing_field_null_filling.1 demoMRec "file_path" (by decide) (by decide),
   rfl,
   missing_field_null_filling.2.2.1 (fun _ => none) dt0 emptyDoc "orders/1" rfl⟩

/-- C6: on rows whose partition timestamps are valid datetimes, the
partitioner groups two rows together exactly when they share a calendar
day, each partition is the input filtered to its key (insertion order
preserved), and the union of the partitions is a permutation of the
input. -/
theorem partitioner_day_grouping (l : List NormalizedRow)
    (hval : ∀ r ∈ l, ValidDT r.orderDate) : PartitionerSpec l := by
  have hchar : ∀ k v, lookupG (groupByDate l) k = some v →
      v = l.filter (fun r => dateKey r.orderDate == k) := by
    intro k v h
    rw [lookupG_groupByDate] at h
    by_cases hf : l.filter (fun r => dateKey r.orderDate == k) = []
    · rw [if_pos hf] at h
      cases h
    · rw [if_neg hf] at h
      injection h with h
      exact h.symm
  refine ⟨?_, hchar, groupValues_groupByDate l⟩
  intro k1 k2 v1 v2 r1 r2 h1 hr1 h2 hr2
  rw [hchar k1 v1 h1] at hr1
  rw [hchar k2 v2 h2] at hr2
  obtain ⟨hm1, hk1⟩ := List.mem_filter.mp hr1
  obtain ⟨hm2, hk2⟩ := List.mem_filter.mp hr2
  rw [beq_iff_eq] at hk1 hk2
  constructor
  · intro hk
    exact dateKey_inj _ _ (hval r1 hm1) (hval r2 hm2) (by rw [hk1, hk2, hk])
  · intro hsd
    rw [← hk1, ← hk2]
    exact dateKey_sameDay _ _ hsd

/-- C6 witness: three rows, two on 2024-01-01 and one on 2024-01-02,
with their validity hypotheses discharged concretely. -/
theorem partitioner_day_grouping_witness :
    (∀ r ∈ rowsDemo, ValidDT r.orderDate) ∧ PartitionerSpec rowsDemo :=
  ⟨by decide, partitioner_day_grouping rowsDemo (by decide)⟩

/-- C7: the landing writer puts one partition's serialized rows at the
deterministic key zone/dataset/partition/data.parquet, and writing the
same rows twice leaves the store, and the object's contents, identical
to a single write (overwrite, not append). -/
theorem landing_writer_idempotent (store : List (String × List NormalizedRow))
    (orders : List NormalizedRow) (p : String) :
    (writeParquetToMinio (writeParquetToMinio store orders p).1 orders p).1 =
      (writeParquetToMinio store orders p).1 ∧
    (writeParquetToMinio store orders p).2 =
      "silver/ravendb_landing/orders/" ++ p ++ "/data.parquet" ∧
    lookupStore (writeParquetToMinio store orders p).1 (landingKey p) =
      some (orders.map floorRowMs) := by
  refine ⟨?_, rfl, ?_⟩
  · exact putObject_idem store (landingKey p) (orders.map floorRowMs)
  · exact lookupStore_putObject store (landingKey p) (orders.map floorRowMs)

/-- C8: a source record whose order-date string fails to parse is still
flattened into a complete row, with the current processing time
substituted as the timestamp; no document is dropped by the flattening
pass (fetch_all_orders keeps the batch length). -/
theorem temporal_coercion_fallback (parseIso : String → Option DT) (now : DT)
    (docs : List (OrderDoc × String)) :
    (fetchAllOrders parseIso now docs).length = docs.length ∧
    (∀ (doc : OrderDoc) (docId s : String),
      doc.orderDate = some (DateField.str s) →
      parseIso (s.replace "Z" "+00:00") = none →
      (flattenOrder parseIso now doc docId).orderDate = now ∧
      (flattenOrder parseIso now doc docId).orderId = docId) := by
  constructor
  · simp [fetchAllOrders]
  · intro doc docId s h1 h2
    constructor
    · simp [flattenOrder, h1, h2]
    · rfl

/-- C8 witness: the document whose OrderDate is the unparseable string,
under a parser that rejects every input. -/
theorem temporal_coercion_fallback_witness :
    badDateDoc.orderDate = some (DateField.str "not-a-date") ∧
    (fun _ : String => (none : Option DT)) ("not-a-date".replace "Z" "+00:00") = none ∧
    ((flattenOrder (fun _ => none) dt0 badDateDoc "orders/9").orderDate = dt0 ∧
     (flattenOrder (fun _ => none) dt0 badDateDoc "orders/9").orderId = "orders/9") :=
  ⟨rfl, rfl,
   (temporal_coercion_fallback (fun _ => none) dt0 []).2 badDateDoc "orders/9"
     "not-a-date" rfl rfl⟩

/-- C9 counterexample: metadata_to_dataframe mutates the record
dictionaries of its input batch — after the call an initially empty
record has been filled in place, so the batch is no longer equal to what
was passed in. -/
theorem metadata_mutates_records :
    ¬ (metadataToDataframe [([] : MRec)]).2 = [([] : MRec)] := by decide

/-- C9 (amended): flatten_order has no side effect on its source
document, but metadata_to_dataframe updates each record dict in the
batch in place; the mutation only appends the missing schema fields,
each with the null value. -/
theorem flattener_source_effects :
    (∀ (parseIso : String → Option DT) (now : DT) (doc : OrderDoc) (docId : String),
      (flattenOrderState parseIso now doc docId).2 = doc) ∧
    (∀ ml : List MRec, (metadataToDataframe ml).2 = ml.map fillRecord) ∧
    (∀ r : MRec, ∃ ext : MRec,
      fillRecord r = r ++ ext ∧ ∀ p ∈ ext, p.2 = MVal.null) :=
  ⟨fun _ _ _ _ => rfl, fun _ => rfl, fun r => fill_append_ext schemaFields r⟩

/-- C9 witness: the effect equations evaluated on a concrete document
and a concrete one-field metadata record. -/
theorem flattener_source_effects_witness :
    (flattenOrderState (fun _ => none) dt0 emptyDoc "orders/1").2 = emptyDoc ∧
    (metadataToDataframe [demoMRec]).2 = [demoMRec].map fillRecord ∧
    (∃ ext : MRec, fillRecord demoMRec = demoMRec ++ ext ∧
      ∀ p ∈ ext, p.2 = MVal.null) :=
  ⟨flattener_source_effects.1 (fun _ => none) dt0 emptyDoc "orders/1",
   flattener_source_effects.2.1 [demoMRec],
   flattener_source_effects.2.2 demoMRec⟩

/-- C10: the flattened TotalAmount keeps the document's pre-computed
value (rounded to 2 places) only when that value is truthy (non-zero);
whenever the stored value is absent or zero and the document carries a
Lines array, it is recomputed as the rounded sum over the lines of
price times quantity, each defaulting to 0 when missing. -/
theorem total_amount_recompute (parseIso : String → Option DT) (now : DT)
    (doc : OrderDoc) (docId : String) :
    (∀ ls : List LineItem, doc.lines = some ls →
      (doc.totalAmount = none ∨ doc.totalAmount = some 0) →
      (flattenOrder parseIso now doc docId).totalAmount =
        round2 ((ls.map (fun l => l.price.getD 0 * l.quantity.getD 0)).sum)) ∧
    (∀ q : ℚ, doc.totalAmount = some q → ¬ q = 0 →
      (flattenOrder parseIso now doc docId).totalAmount = round2 q) := by
  constructor
  · intro ls h1 h2
    rcases h2 with h2 | h2 <;> simp [flattenOrder, h1, h2]
  · intro q h1 h2
    simp [flattenOrder, h1, h2]

/-- C10 witness: a document legitimately carrying TotalAmount = 0 with a
non-empty Lines array gets the recomputed sum 6 (= 2 * 3), not 0. -/
theorem total_amount_recompute_witness :
    zeroTotalDoc.lines = some [{ price := some 2, quantity := some 3 }] ∧
    (zeroTotalDoc.totalAmount = none ∨ zeroTotalDoc.totalAmount = some 0) ∧
    (flattenOrder (fun _ => none) dt0 zeroTotalDoc "orders/z").totalAmount =
      round2 ((([{ price := some 2, quantity := some 3 }] : List LineItem).map
        (fun l => l.price.getD 0 * l.quantity.getD 0)).sum) ∧
    round2 ((([{ price := some 2, quantity := some 3 }] : List LineItem).map
        (fun l => l.price.getD 0 * l.quantity.getD 0)).sum) = 6 :=
  ⟨rfl, Or.inr rfl,
   (total_amount_recompute (fun _ => none) dt0 zeroTotalDoc "orders/z").1
     [{ price := some 2, quantity := some 3 }] rfl (Or.inr rfl),
   by norm_num [round2, roundHalfEven]⟩

end Lakehouse
